import Mathlib

/-!
Shallow embedding of the bronze_dbo_trans_hst2 webhook service (src/main.py).

The embedding covers the message-normalization core and the record store:

* `BronzeTransHst2` — the 21-field business record (the `received_at` /
  `processing_id` metadata fields, wall-clock time and UUID generation, are
  outside the embedding).  Field values are `FieldVal = none | int | str`;
  the pydantic validation performed by the `BronzeTransHst2(...)` constructor
  is modelled per schema kind by `vIntJ`/`vStrJ` (structured path) and
  `vIntA`/`vStrA` (fallback path), following the behavior on which pydantic
  v1 and v2 agree; the few divergent corners (bool/float into int fields,
  numbers into str fields) follow v2 and are noted at the definitions.
* `jsonParse` — a model of `json.loads` over the payload shapes the service
  handles: null/bool/integer/float/string/array/object, with the
  `NaN`/`Infinity` constants; float values are carried as literal text
  (floating-point arithmetic is outside the embedding, the parse branch is
  exact).  CPython's recursion limit on deeply nested input (a resource
  bound) is not modelled.
* `convert_timestamp` — `ConfluentMessageParser._convert_timestamp`,
  parameterized by two functions `convS convM : Int → Option String`
  abstracting `datetime.fromtimestamp(v).isoformat()` and
  `datetime.fromtimestamp(v/1000).isoformat()` (`none` models the conversion
  raising, which the source catches and turns into `str(value)`).
* `parse_json_message`, `parse_avro_string`, `create_error_record`,
  `parse_confluent_message` — the decoder; exceptions are modelled with
  `Except String`, where the `String` stands for the exception text.
* `extract_value` — the regex fallback; the four concrete patterns of
  `_parse_avro_string` are implemented as deterministic matchers with
  leftmost-search (`re.search`) semantics.
* `append_record`, `get_bronze_stats`, `receive_bronze_record`, `utf8Decode` —
  the storage/endpoint layer; `now` is passed explicitly for
  `datetime.now().isoformat()`.
-/

/-- A business-field value: Python `None`, an `int`, or a `str`. -/
inductive FieldVal where
  | vnone : FieldVal
  | vint : Int → FieldVal
  | vstr : String → FieldVal
deriving DecidableEq

/-- The 21 business fields of the Delta-table record (src/main.py lines 21-42).
Metadata fields (`received_at`, `processing_id`) are outside the embedding. -/
structure BronzeTransHst2 where
  authorizer_usrnbr : FieldVal
  creat_time : FieldVal
  creat_usrnbr : FieldVal
  data : FieldVal
  description : FieldVal
  description2 : FieldVal
  external_user : FieldVal
  four_eye_on : FieldVal
  name : FieldVal
  next_seqnbr : FieldVal
  oper : FieldVal
  owner_usrnbr : FieldVal
  protection : FieldVal
  record_id : FieldVal
  seqnbr : FieldVal
  size : FieldVal
  transnbr : FieldVal
  trans_record_type : FieldVal
  updat_time : FieldVal
  updat_usrnbr : FieldVal
  version : FieldVal
deriving DecidableEq

/-- The record with every business field `None`. -/
def nullRecord : BronzeTransHst2 :=
  ⟨.vnone, .vnone, .vnone, .vnone, .vnone, .vnone, .vnone, .vnone, .vnone,
   .vnone, .vnone, .vnone, .vnone, .vnone, .vnone, .vnone, .vnone, .vnone,
   .vnone, .vnone, .vnone⟩

/-- A parsed JSON value (`json.loads` output).  A float literal (including
the `NaN`/`Infinity` constants `json.loads` accepts) parses successfully and
is carried as its literal text: floating-point ARITHMETIC is outside the
embedding, but the parse branch taken by the program is modelled exactly. -/
inductive JVal where
  | jnull : JVal
  | jbool : Bool → JVal
  | jint : Int → JVal
  | jfloat : String → JVal
  | jstr : String → JVal
  | jarr : List JVal → JVal
  | jobj : List (String × JVal) → JVal

/-- Characters matched by the regex class `\s` (Python `re`, ASCII). -/
def isPyWs (c : Char) : Bool :=
  c.toNat = 32 || c.toNat = 9 || c.toNat = 10 || c.toNat = 13 ||
  c.toNat = 11 || c.toNat = 12

/-- JSON whitespace accepted between tokens by `json.loads`. -/
def isJsonWs (c : Char) : Bool :=
  c.toNat = 32 || c.toNat = 9 || c.toNat = 10 || c.toNat = 13

/-- ASCII decimal digit. -/
def isAsciiDigit (c : Char) : Bool :=
  48 ≤ c.toNat && c.toNat ≤ 57

/-- ASCII letter. -/
def isAsciiAlpha (c : Char) : Bool :=
  (65 ≤ c.toNat && c.toNat ≤ 90) || (97 ≤ c.toNat && c.toNat ≤ 122)

/-- Numeric value of a run of ASCII digits, most significant first. -/
def digitsVal (ds : List Char) : Nat :=
  ds.foldl (fun a c => a * 10 + (c.toNat - 48)) 0

/-- Decimal rendering of a nonnegative integer (Python `str`). -/
def natRepr (n : Nat) : String := Nat.repr n

/-- Decimal rendering of an integer (Python `str` on `int`). -/
def intRepr (n : Int) : String :=
  if n < 0 then "-" ++ natRepr n.natAbs else natRepr n.natAbs

/-- Comma-separated join. -/
def joinComma : List String → String
  | [] => ""
  | [s] => s
  | s :: r => s ++ ", " ++ joinComma r

mutual
/-- Python `str()` / `repr()` rendering of a JSON-parsed value, used only by
the `str(timestamp_value)` fallback for container/bool inputs.  For floats
the literal text stands in (Python normalizes, e.g. `1e5` renders as
`100000.0` — floating point, outside the embedding; no claim depends on it). -/
def pyRepr : JVal → String
  | .jnull => "None"
  | .jbool true => "True"
  | .jbool false => "False"
  | .jint n => intRepr n
  | .jfloat lit => lit
  | .jstr s => "'" ++ s ++ "'"
  | .jarr xs => "[" ++ joinComma (pyReprArr xs) ++ "]"
  | .jobj kvs => "\x7b" ++ joinComma (pyReprObj kvs) ++ "\x7d"

/-- Renders each array element. -/
def pyReprArr : List JVal → List String
  | [] => []
  | v :: vs => pyRepr v :: pyReprArr vs

/-- Renders each object member as `'key': value`. -/
def pyReprObj : List (String × JVal) → List String
  | [] => []
  | (k, v) :: kvs => ("'" ++ k ++ "': " ++ pyRepr v) :: pyReprObj kvs
end

/-- Is a float literal the number zero?  `NaN`/`Infinity` are nonzero; a
finite literal is zero iff its mantissa holds no nonzero digit.  (Subnormal
underflow, e.g. `1e-400` rounding to `0.0`, is floating point and outside
the embedding; no claim depends on this predicate.) -/
def floatLitIsZero (lit : String) : Bool :=
  match lit.data with
  | 'N' :: _ => false
  | 'I' :: _ => false
  | '-' :: 'I' :: _ => false
  | cs =>
    (cs.takeWhile (fun c => c != 'e' && c != 'E')).all
      (fun c => !isAsciiDigit c || c == '0')

/-- Python truthiness of a JSON-parsed value (`if not timestamp_value`). -/
def pyTruthyJ : JVal → Bool
  | .jnull => false
  | .jbool b => b
  | .jint n => n != 0
  | .jfloat lit => !floatLitIsZero lit
  | .jstr s => s != ""
  | .jarr xs => !xs.isEmpty
  | .jobj kvs => !kvs.isEmpty

/-- Modelled boundary: the string produced by converting a float epoch value
(`datetime.fromtimestamp` on a float, local time) — floating point, outside
the embedding; the literal text stands in. -/
def floatTsModel (lit : String) : String := lit

/-- `ConfluentMessageParser._convert_timestamp` (src/main.py lines 177-199).
`convS v` models `datetime.fromtimestamp(v).isoformat()` and `convM v` models
`datetime.fromtimestamp(v/1000).isoformat()`; a `none` result models the
conversion raising, which the source catches before falling back to
`str(timestamp_value)`.  The input is `none` when the key was absent
(`data.get(...)` returned `None`). -/
def convert_timestamp (convS convM : Int → Option String) :
    Option JVal → Option String
  | none => none
  | some v =>
    if pyTruthyJ v = false then none
    else
      match v with
      | .jstr s => some s
      | .jint n =>
        some (match (if n > 10 ^ 12 then convM n else convS n) with
          | some s => s
          | none => intRepr n)
      | .jbool b =>
        -- `isinstance(True, int)` holds in Python: booleans take the numeric
        -- branch with value 1 (False is falsy and never reaches here); the
        -- `str(timestamp_value)` fallback renders the original boolean.
        let n : Int := if b then 1 else 0
        some (match (if n > 10 ^ 12 then convM n else convS n) with
          | some s => s
          | none => pyRepr (.jbool b))
      | .jfloat lit =>
        -- `isinstance(v, float)`: floats take the numeric branch (`> 1e12`
        -- split, `fromtimestamp`, `str(value)` fallback).  Floating-point
        -- arithmetic is outside the embedding, so the resulting string is a
        -- total stand-in function of the literal; it is a string in every
        -- case, as in the program.  No claim exercises this case.
        some (floatTsModel lit)
      | other => some (pyRepr other)

/-- Membership test on object keys (`'value' in json_data` for a dict). -/
def hasKey (kvs : List (String × JVal)) (k : String) : Bool :=
  kvs.any (fun p => p.1 == k)

/-- Dictionary lookup; `json.loads` keeps the last of duplicate keys, so the
reversed list is searched. -/
def lookupJ (kvs : List (String × JVal)) (k : String) : Option JVal :=
  (kvs.reverse.find? (fun p => p.1 == k)).map (fun p => p.2)

/-- Python `int(str)` digit loop: ASCII digits with single underscores
allowed between digits (`afterUnd` records a pending underscore);
`none` models `ValueError`. -/
def duGo (acc : Nat) (afterUnd : Bool) : List Char → Option Nat
  | [] => if afterUnd then none else some acc
  | c :: r =>
    if isAsciiDigit c then duGo (acc * 10 + (c.toNat - 48)) false r
    else if c = '_' && !afterUnd then duGo acc true r
    else none

/-- Digit run (with grouping underscores) to a number; empty input fails. -/
def digitsU : List Char → Option Nat
  | [] => none
  | c :: r => if isAsciiDigit c then duGo (c.toNat - 48) false r else none

/-- Strip leading and trailing whitespace. -/
def trimWs (cs : List Char) : List Char :=
  ((cs.dropWhile (fun c => isPyWs c)).reverse.dropWhile (fun c => isPyWs c)).reverse

/-- Sign-and-digits parsing after whitespace stripping. -/
def pyIntCore : List Char → Option Int
  | [] => none
  | c :: r =>
    if c = '+' then (digitsU r).map Int.ofNat
    else if c = '-' then (digitsU r).map (fun n => -(n : Int))
    else (digitsU (c :: r)).map Int.ofNat

/-- Python `int(s)` for `str` input (ASCII model); `none` models `ValueError`. -/
def pyIntOfString (s : String) : Option Int :=
  pyIntCore (trimWs s.data)

/-- Pydantic validation of a looked-up JSON value for an `Optional[int]`
field (the `BronzeTransHst2(...)` constructor call raises `ValidationError`
on a bad value, caught by the decoder's outer `except`).  Modelled where
pydantic v1 and v2 agree: `None` and ints pass, integer-literal strings are
coerced, non-numeric strings and containers are rejected.  Divergent corners
follow v2 and are noted: v1 would additionally coerce bools (`True → 1`) and
truncate floats; no claim exercises those. -/
def vIntJ : Option JVal → Except String FieldVal
  | none => .ok .vnone
  | some .jnull => .ok .vnone
  | some (.jint n) => .ok (.vint n)
  | some (.jstr s) =>
    match pyIntOfString s with
    | some n => .ok (.vint n)
    | none => .error "ValidationError"
  | some _ => .error "ValidationError"

/-- Pydantic validation of a looked-up JSON value for an `Optional[str]`
field.  `None` and strings pass; everything else is rejected (v2 behavior;
v1 would coerce numbers to their decimal string — divergent, noted, and in
neither version is the original non-string value stored). -/
def vStrJ : Option JVal → Except String FieldVal
  | none => .ok .vnone
  | some .jnull => .ok .vnone
  | some (.jstr s) => .ok (.vstr s)
  | some _ => .error "ValidationError"

/-- Pydantic validation of a pattern-extracted value for an `Optional[int]`
field (same agreement region as `vIntJ`; `extract_value` pre-coerces digit
strings, so its string outputs are exactly the non-int-coercible ones and
are rejected here, as both pydantic versions do). -/
def vIntA : FieldVal → Except String FieldVal
  | .vnone => .ok .vnone
  | .vint n => .ok (.vint n)
  | .vstr s =>
    match pyIntOfString s with
    | some n => .ok (.vint n)
    | none => .error "ValidationError"

/-- Pydantic validation of a pattern-extracted value for an `Optional[str]`
field: ints are rejected (v2; v1 would coerce to the decimal string —
divergent, noted; in neither version is the int stored as an int). -/
def vStrA : FieldVal → Except String FieldVal
  | .vnone => .ok .vnone
  | .vstr s => .ok (.vstr s)
  | .vint _ => .error "ValidationError"

/-- Wraps the output of `convert_timestamp` into a field value (a string or
`None`, which `Optional[str]` always accepts). -/
def strFieldOf : Option String → FieldVal
  | none => .vnone
  | some s => .vstr s

/-- Does an element equal to the string `k` occur in the array
(`'value' in [...]` membership)? -/
def arrHasStr (xs : List JVal) (k : String) : Bool :=
  xs.any (fun x => match x with | .jstr s => s == k | _ => false)

/-- Does `hay` start with `needle`? -/
def startsWithL : List Char → List Char → Bool
  | [], _ => true
  | _ :: _, [] => false
  | n :: ns, h :: hs => n = h && startsWithL ns hs

/-- Is `needle` a contiguous substring of `hay` (`'value' in s` for strings)? -/
def containsSub (needle hay : List Char) : Bool :=
  match hay with
  | [] => needle.isEmpty
  | _ :: t => startsWithL needle hay || containsSub needle t

/-- `ConfluentMessageParser._parse_json_message` (src/main.py lines 88-126).
`Except.error` models a raised exception (caught by the caller); the string
names the Python exception class.  Non-dict top-level values raise: membership
`'value' in x` is a `TypeError` for `None`/`bool`/`int`/`float`, and for
strings or arrays the subsequent indexing or `.get` raises; after envelope
unwrap, `.get` on a non-dict raises `AttributeError`.  The
`BronzeTransHst2(...)` call at line 104 validates each field (pydantic, in
field-declaration order); a `ValidationError` propagates to the caller's
`except` like any other exception. -/
def parse_json_message (convS convM : Int → Option String) :
    JVal → Except String BronzeTransHst2
  | .jobj kvs =>
    let dataV : JVal :=
      if hasKey kvs "value" then (lookupJ kvs "value").getD .jnull
      else if hasKey kvs "payload" then (lookupJ kvs "payload").getD .jnull
      else .jobj kvs
    match dataV with
    | .jobj d => do
      let v01 ← vIntJ (lookupJ d "authorizer_usrnbr")
      let v02 := strFieldOf (convert_timestamp convS convM (lookupJ d "creat_time"))
      let v03 ← vIntJ (lookupJ d "creat_usrnbr")
      let v04 ← vStrJ (lookupJ d "data")
      let v05 ← vStrJ (lookupJ d "description")
      let v06 ← vStrJ (lookupJ d "description2")
      let v07 ← vStrJ (lookupJ d "external_user")
      let v08 ← vIntJ (lookupJ d "four_eye_on")
      let v09 ← vStrJ (lookupJ d "name")
      let v10 ← vIntJ (lookupJ d "next_seqnbr")
      let v11 ← vIntJ (lookupJ d "oper")
      let v12 ← vIntJ (lookupJ d "owner_usrnbr")
      let v13 ← vIntJ (lookupJ d "protection")
      let v14 ← vIntJ (lookupJ d "record_id")
      let v15 ← vIntJ (lookupJ d "seqnbr")
      let v16 ← vIntJ (lookupJ d "size")
      let v17 ← vIntJ (lookupJ d "transnbr")
      let v18 ← vIntJ (lookupJ d "trans_record_type")
      let v19 := strFieldOf (convert_timestamp convS convM (lookupJ d "updat_time"))
      let v20 ← vIntJ (lookupJ d "updat_usrnbr")
      let v21 ← vIntJ (lookupJ d "version")
      Except.ok
        { authorizer_usrnbr := v01, creat_time := v02, creat_usrnbr := v03
          data := v04, description := v05, description2 := v06
          external_user := v07, four_eye_on := v08, name := v09
          next_seqnbr := v10, oper := v11, owner_usrnbr := v12
          protection := v13, record_id := v14, seqnbr := v15, size := v16
          transnbr := v17, trans_record_type := v18, updat_time := v19
          updat_usrnbr := v20, version := v21 }
    | _ => .error "AttributeError"
  | .jstr s =>
    if containsSub "value".data s.data then .error "TypeError"
    else if containsSub "payload".data s.data then .error "TypeError"
    else .error "AttributeError"
  | .jarr xs =>
    if arrHasStr xs "value" then .error "TypeError"
    else if arrHasStr xs "payload" then .error "TypeError"
    else .error "AttributeError"
  | .jnull => .error "TypeError"
  | .jbool _ => .error "TypeError"
  | .jint _ => .error "TypeError"
  | .jfloat _ => .error "TypeError"

/-- Skips leading JSON whitespace. -/
def skipJWs : List Char → List Char
  | c :: r => if isJsonWs c then skipJWs r else c :: r
  | [] => []

/-- Hexadecimal digit value. -/
def hexVal (c : Char) : Option Nat :=
  if 48 ≤ c.toNat && c.toNat ≤ 57 then some (c.toNat - 48)
  else if 97 ≤ c.toNat && c.toNat ≤ 102 then some (c.toNat - 87)
  else if 65 ≤ c.toNat && c.toNat ≤ 70 then some (c.toNat - 55)
  else none

/-- Escape-character decoding for JSON strings. -/
def escChar (c : Char) : Option Char :=
  if c = '"' then some '"'
  else if c = '\\' then some '\\'
  else if c = '/' then some '/'
  else if c = 'b' then some (Char.ofNat 8)
  else if c = 'f' then some (Char.ofNat 12)
  else if c = 'n' then some '\n'
  else if c = 'r' then some '\r'
  else if c = 't' then some '\t'
  else none

/-- JSON string-body scanner (after the opening quote); strict mode rejects
raw control characters, as `json.loads` does. -/
def parseJString (acc : List Char) : List Char → Option (String × List Char)
  | [] => none
  | '"' :: r => some (String.mk acc.reverse, r)
  | '\\' :: 'u' :: h1 :: h2 :: h3 :: h4 :: r =>
    match hexVal h1, hexVal h2, hexVal h3, hexVal h4 with
    | some a, some b, some c, some d =>
      parseJString (Char.ofNat (((a * 16 + b) * 16 + c) * 16 + d) :: acc) r
    | _, _, _, _ => none
  | '\\' :: e :: r =>
    match escChar e with
    | some c => parseJString (c :: acc) r
    | none => none
  | c :: r => if c.toNat < 32 then none else parseJString (c :: acc) r

/-- Maximal leading run of ASCII digits. -/
def takeDigits : List Char → List Char × List Char
  | c :: r =>
    if isAsciiDigit c then
      let p := takeDigits r
      (c :: p.1, p.2)
    else ([], c :: r)
  | [] => ([], [])

/-- Literal matcher used by the JSON parser for `null`/`true`/`false` and
the float constants. -/
def matchLitJ : List Char → List Char → Option (List Char)
  | [], cs => some cs
  | _ :: _, [] => none
  | l :: ls, c :: cs => if c = l then matchLitJ ls cs else none

/-- JSON integer part: `0` alone, or a nonzero digit followed by digits
(leading zeros are rejected, as `json.loads` does). -/
def parseIntPart : List Char → Option (List Char × List Char)
  | '0' :: r =>
    match r with
    | d :: _ => if isAsciiDigit d then none else some (['0'], r)
    | [] => some (['0'], [])
  | c :: r =>
    if isAsciiDigit c then
      let p := takeDigits (c :: r)
      some (p.1, p.2)
    else none
  | [] => none

/-- Optional JSON fraction part `.digits`; returns the consumed characters
(empty when absent); a bare `.` without digits fails. -/
def parseFrac : List Char → Option (List Char × List Char)
  | '.' :: r =>
    let p := takeDigits r
    if p.1.isEmpty then none else some ('.' :: p.1, p.2)
  | cs => some ([], cs)

/-- Optional JSON exponent part `[eE][+-]?digits`; returns the consumed
characters (empty when absent); an exponent marker without digits fails. -/
def parseExp : List Char → Option (List Char × List Char)
  | c :: r =>
    if c = 'e' || c = 'E' then
      match r with
      | s :: r2 =>
        if s = '+' || s = '-' then
          let p := takeDigits r2
          if p.1.isEmpty then none else some (c :: s :: p.1, p.2)
        else
          let p := takeDigits r
          if p.1.isEmpty then none else some (c :: p.1, p.2)
      | [] => none
    else some ([], c :: r)
  | [] => some ([], [])

/-- Unsigned JSON number body: integer part with optional fraction and
exponent.  Without fraction or exponent the value is an integer; otherwise
it is a float, carried as its literal text. -/
def parseNumBody (cs : List Char) : Option (JVal × List Char) :=
  match parseIntPart cs with
  | none => none
  | some (ip, r1) =>
    match parseFrac r1 with
    | none => none
    | some (fp, r2) =>
      match parseExp r2 with
      | none => none
      | some (ep, r3) =>
        if fp.isEmpty && ep.isEmpty then some (.jint (Int.ofNat (digitsVal ip)), r3)
        else some (.jfloat (String.mk (ip ++ fp ++ ep)), r3)

/-- JSON number literal, including the `NaN`/`Infinity`/`-Infinity`
constants `json.loads` accepts (but not `-NaN`, which it rejects). -/
def parseJNumber (cs : List Char) : Option (JVal × List Char) :=
  match cs with
  | 'I' :: r =>
    (matchLitJ ['n', 'f', 'i', 'n', 'i', 't', 'y'] r).map
      (fun rest => (.jfloat "Infinity", rest))
  | 'N' :: r =>
    (matchLitJ ['a', 'N'] r).map (fun rest => (.jfloat "NaN", rest))
  | '-' :: 'I' :: r =>
    (matchLitJ ['n', 'f', 'i', 'n', 'i', 't', 'y'] r).map
      (fun rest => (.jfloat "-Infinity", rest))
  | '-' :: r =>
    (parseNumBody r).map (fun p =>
      (match p.1 with
        | .jint n => .jint (-n)
        | .jfloat lit => .jfloat ("-" ++ lit)
        | v => v,
       p.2))
  | _ => parseNumBody cs

mutual
/-- Recursive-descent JSON value parser; `fuel` bounds nesting and is always
called with more fuel than the input length, so it never runs dry on inputs
`json.loads` accepts. -/
def parseValue (fuel : Nat) (cs : List Char) : Option (JVal × List Char) :=
  match fuel with
  | 0 => none
  | fuel + 1 =>
    match cs with
    | [] => none
    | c :: r =>
      if c = '"' then (parseJString [] r).map (fun p => (.jstr p.1, p.2))
      else if c = 'n' then (matchLitJ ['u', 'l', 'l'] r).map (fun r' => (.jnull, r'))
      else if c = 't' then (matchLitJ ['r', 'u', 'e'] r).map (fun r' => (.jbool true, r'))
      else if c = 'f' then (matchLitJ ['a', 'l', 's', 'e'] r).map (fun r' => (.jbool false, r'))
      else if c = '[' then
        match skipJWs r with
        | ']' :: r2 => some (.jarr [], r2)
        | r1 => parseArrElems fuel r1 []
      else if c = '\x7b' then
        match skipJWs r with
        | '\x7d' :: r2 => some (.jobj [], r2)
        | r1 => parseObjMembers fuel r1 []
      else parseJNumber (c :: r)

/-- Comma-separated array elements up to `]`. -/
def parseArrElems (fuel : Nat) (cs : List Char) (acc : List JVal) :
    Option (JVal × List Char) :=
  match fuel with
  | 0 => none
  | fuel + 1 =>
    match parseValue fuel (skipJWs cs) with
    | none => none
    | some (v, r) =>
      match skipJWs r with
      | ',' :: r2 => parseArrElems fuel r2 (v :: acc)
      | ']' :: r2 => some (.jarr (v :: acc).reverse, r2)
      | _ => none

/-- Comma-separated `"key": value` members up to the closing brace. -/
def parseObjMembers (fuel : Nat) (cs : List Char) (acc : List (String × JVal)) :
    Option (JVal × List Char) :=
  match fuel with
  | 0 => none
  | fuel + 1 =>
    match skipJWs cs with
    | '"' :: r =>
      match parseJString [] r with
      | none => none
      | some (k, r1) =>
        match skipJWs r1 with
        | ':' :: r2 =>
          match parseValue fuel (skipJWs r2) with
          | none => none
          | some (v, r3) =>
            match skipJWs r3 with
            | ',' :: r4 => parseObjMembers fuel r4 ((k, v) :: acc)
            | '\x7d' :: r4 => some (.jobj ((k, v) :: acc).reverse, r4)
            | _ => none
        | _ => none
    | _ => none
end

/-- `json.loads`: parse one value surrounded by optional whitespace,
requiring the whole input to be consumed; `none` models `JSONDecodeError`. -/
def jsonParse (s : String) : Option JVal :=
  match parseValue (s.data.length + 1) (skipJWs s.data) with
  | some (v, r) => if (skipJWs r).isEmpty then some v else none
  | none => none


/-- The `int(value)`-or-keep-string coercion of `extract_value`
(src/main.py lines 146-150). -/
def coerceGroup (g : String) : FieldVal :=
  match pyIntOfString g with
  | some n => .vint n
  | none => .vstr g

/-- Left brace character (0x7b). -/
def lbraceC : Char := '\x7b'

/-- Right brace character (0x7d). -/
def rbraceC : Char := '\x7d'

/-- Matches one expected character. -/
def expectChar (c : Char) (cs : List Char) : Option (List Char) :=
  match cs with
  | d :: r => if d = c then some r else none
  | [] => none

/-- Matches a literal character sequence. -/
def matchLit : List Char → List Char → Option (List Char)
  | [], cs => some cs
  | _ :: _, [] => none
  | l :: ls, c :: cs => if c = l then matchLit ls cs else none

/-- Maximal leading run of regex `\s` characters (the `\s*` pieces). -/
def skipWsL : List Char → List Char
  | c :: r => if isPyWs c then skipWsL r else c :: r
  | [] => []

/-- Maximal leading run of non-quote characters (the `[^"]+` piece). -/
def takeNonQuote : List Char → List Char × List Char
  | c :: r =>
    if c = '"' then ([], c :: r)
    else
      let p := takeNonQuote r
      (c :: p.1, p.2)
  | [] => ([], [])

/-- Attempt of pattern 1 at the current position:
`"f"\s*:\s*\x7b\s*"int"\s*:\s*(\d+)\s*\x7d`; returns the captured group. -/
def matchP1At (fd : List Char) (cs : List Char) : Option String :=
  (expectChar '"' cs).bind fun r1 =>
  (matchLit fd r1).bind fun r2 =>
  (expectChar '"' r2).bind fun r3 =>
  (expectChar ':' (skipWsL r3)).bind fun r4 =>
  (expectChar lbraceC (skipWsL r4)).bind fun r5 =>
  (expectChar '"' (skipWsL r5)).bind fun r6 =>
  (matchLit ['i', 'n', 't'] r6).bind fun r7 =>
  (expectChar '"' r7).bind fun r8 =>
  (expectChar ':' (skipWsL r8)).bind fun r9 =>
  (let p := takeDigits (skipWsL r9)
   if p.1.isEmpty then none
   else (expectChar rbraceC (skipWsL p.2)).bind fun _ => some (String.mk p.1))

/-- Attempt of pattern 2 at the current position:
`"f"\s*:\s*\x7b\s*"string"\s*:\s*"([^"]+)"\s*\x7d`. -/
def matchP2At (fd : List Char) (cs : List Char) : Option String :=
  (expectChar '"' cs).bind fun r1 =>
  (matchLit fd r1).bind fun r2 =>
  (expectChar '"' r2).bind fun r3 =>
  (expectChar ':' (skipWsL r3)).bind fun r4 =>
  (expectChar lbraceC (skipWsL r4)).bind fun r5 =>
  (expectChar '"' (skipWsL r5)).bind fun r6 =>
  (matchLit ['s', 't', 'r', 'i', 'n', 'g'] r6).bind fun r7 =>
  (expectChar '"' r7).bind fun r8 =>
  (expectChar ':' (skipWsL r8)).bind fun r9 =>
  (expectChar '"' (skipWsL r9)).bind fun r10 =>
  (let p := takeNonQuote r10
   if p.1.isEmpty then none
   else
     (expectChar '"' p.2).bind fun r11 =>
     (expectChar rbraceC (skipWsL r11)).bind fun _ => some (String.mk p.1))

/-- Attempt of pattern 3 at the current position: `"f"\s*:\s*(\d+)`. -/
def matchP3At (fd : List Char) (cs : List Char) : Option String :=
  (expectChar '"' cs).bind fun r1 =>
  (matchLit fd r1).bind fun r2 =>
  (expectChar '"' r2).bind fun r3 =>
  (expectChar ':' (skipWsL r3)).bind fun r4 =>
  (let p := takeDigits (skipWsL r4)
   if p.1.isEmpty then none else some (String.mk p.1))

/-- Attempt of pattern 4 at the current position: `"f"\s*:\s*"([^"]+)"`. -/
def matchP4At (fd : List Char) (cs : List Char) : Option String :=
  (expectChar '"' cs).bind fun r1 =>
  (matchLit fd r1).bind fun r2 =>
  (expectChar '"' r2).bind fun r3 =>
  (expectChar ':' (skipWsL r3)).bind fun r4 =>
  (expectChar '"' (skipWsL r4)).bind fun r5 =>
  (let p := takeNonQuote r5
   if p.1.isEmpty then none
   else (expectChar '"' p.2).bind fun _ => some (String.mk p.1))

/-- `re.search`: try the pattern at each position, leftmost match wins. -/
def searchAt (m : List Char → Option String) : List Char → Option String
  | [] => m []
  | c :: r =>
    match m (c :: r) with
    | some g => some g
    | none => searchAt m r

/-- The `extract_value` closure of `_parse_avro_string`
(src/main.py lines 133-151): the four patterns are searched in priority
order; a matched group that parses as a Python `int` is coerced. -/
def extract_value (f : String) (text : List Char) : FieldVal :=
  match searchAt (matchP1At f.data) text with
  | some g => coerceGroup g
  | none =>
    match searchAt (matchP2At f.data) text with
    | some g => coerceGroup g
    | none =>
      match searchAt (matchP3At f.data) text with
      | some g => coerceGroup g
      | none =>
        match searchAt (matchP4At f.data) text with
        | some g => coerceGroup g
        | none => .vnone

/-- `ConfluentMessageParser._parse_avro_string` (src/main.py lines 128-175):
every field is extracted independently from the raw text; timestamp fields
are NOT routed through `_convert_timestamp` on this path.  The
`BronzeTransHst2(...)` call at line 153 validates each extracted value
(pydantic, field-declaration order); a `ValidationError` propagates to
`parse_confluent_message`'s `except` and yields the error record. -/
def parse_avro_string (s : String) : Except String BronzeTransHst2 := do
  let v01 ← vIntA (extract_value "authorizer_usrnbr" s.data)
  let v02 ← vStrA (extract_value "creat_time" s.data)
  let v03 ← vIntA (extract_value "creat_usrnbr" s.data)
  let v04 ← vStrA (extract_value "data" s.data)
  let v05 ← vStrA (extract_value "description" s.data)
  let v06 ← vStrA (extract_value "description2" s.data)
  let v07 ← vStrA (extract_value "external_user" s.data)
  let v08 ← vIntA (extract_value "four_eye_on" s.data)
  let v09 ← vStrA (extract_value "name" s.data)
  let v10 ← vIntA (extract_value "next_seqnbr" s.data)
  let v11 ← vIntA (extract_value "oper" s.data)
  let v12 ← vIntA (extract_value "owner_usrnbr" s.data)
  let v13 ← vIntA (extract_value "protection" s.data)
  let v14 ← vIntA (extract_value "record_id" s.data)
  let v15 ← vIntA (extract_value "seqnbr" s.data)
  let v16 ← vIntA (extract_value "size" s.data)
  let v17 ← vIntA (extract_value "transnbr" s.data)
  let v18 ← vIntA (extract_value "trans_record_type" s.data)
  let v19 ← vStrA (extract_value "updat_time" s.data)
  let v20 ← vIntA (extract_value "updat_usrnbr" s.data)
  let v21 ← vIntA (extract_value "version" s.data)
  Except.ok
    { authorizer_usrnbr := v01, creat_time := v02, creat_usrnbr := v03
      data := v04, description := v05, description2 := v06
      external_user := v07, four_eye_on := v08, name := v09
      next_seqnbr := v10, oper := v11, owner_usrnbr := v12
      protection := v13, record_id := v14, seqnbr := v15, size := v16
      transnbr := v17, trans_record_type := v18, updat_time := v19
      updat_usrnbr := v20, version := v21 }

/-- `ConfluentMessageParser._create_error_record` (src/main.py lines 201-210):
`now` stands for `datetime.now().isoformat()`. -/
def create_error_record (raw_data error_msg now : String) : BronzeTransHst2 :=
  { nullRecord with
    record_id := .vint (-1)
    data := .vstr ("PARSE_ERROR: " ++ error_msg)
    description := .vstr (String.mk (raw_data.data.take 100) ++
      (if 100 < raw_data.data.length then "..." else ""))
    name := .vstr "PARSING_FAILED"
    creat_time := .vstr now }

/-- `ConfluentMessageParser.parse_confluent_message` (src/main.py lines
70-86): JSON parsing first; a `JSONDecodeError` selects the AVRO fallback;
any other exception on either path (including a pydantic `ValidationError`
from the fallback's record construction) produces the error record. -/
def parse_confluent_message (convS convM : Int → Option String)
    (now : String) (raw_data : String) : BronzeTransHst2 :=
  match jsonParse raw_data with
  | some v =>
    match parse_json_message convS convM v with
    | .ok r => r
    | .error e => create_error_record raw_data e now
  | none =>
    match parse_avro_string raw_data with
    | .ok r => r
    | .error e => create_error_record raw_data e now

/-- The module-level storage: `record_counter` and `bronze_storage`
(src/main.py lines 63-65). -/
structure StoreState where
  counter : Nat
  storage : List BronzeTransHst2
deriving DecidableEq

/-- The storage mutation of `receive_bronze_record` (src/main.py lines
293-299): append, count, keep only the last 10.  The returned number is the
`total_count` reported to the caller. -/
def append_record (st : StoreState) (r : BronzeTransHst2) : StoreState × Nat :=
  let storage1 := st.storage ++ [r]
  let counter1 := st.counter + 1
  let storage2 :=
    if 10 < storage1.length then storage1.drop (storage1.length - 10)
    else storage1
  (⟨counter1, storage2⟩, counter1)

/-- Sequential appends, collecting each returned total. -/
def appendAll (st : StoreState) : List BronzeTransHst2 → StoreState × List Nat
  | [] => (st, [])
  | r :: rs =>
    let p := append_record st r
    let q := appendAll p.1 rs
    (q.1, p.2 :: q.2)

/-- Python truthiness of a field value (`if r.record_id`). -/
def truthyFV : FieldVal → Bool
  | .vnone => false
  | .vint n => n != 0
  | .vstr s => s != ""

/-- Python `max` over two field values; comparing mixed types raises in
Python and is unreachable for schema-conformant records, so only the
int/int case is meaningful. -/
def py_max_fv (a b : FieldVal) : FieldVal :=
  match a, b with
  | .vint m, .vint n => if m < n then .vint n else .vint m
  | a, _ => a

/-- Python `max(list)`: fold of the pairwise max; `none` on the empty list
(where Python raises but the source guards with `if record_ids`). -/
def pyListMax : List FieldVal → Option FieldVal
  | [] => none
  | x :: xs => some (xs.foldl py_max_fv x)

/-- The statistics payload of `get_bronze_stats`. -/
structure BronzeStats where
  total_records : Nat
  current_storage : Nat
  unique_record_ids : Nat
  unique_users : Nat
  last_record_id : Option FieldVal
deriving DecidableEq

/-- `get_bronze_stats` (src/main.py lines 332-349).  The comprehensions filter
with Python truthiness (`if r.record_id`, `if r.creat_usrnbr`), so zero
values are excluded along with `None`; `len(set(...))` is modelled by
`List.dedup.length`. -/
def get_bronze_stats (counter : Nat) (storage : List BronzeTransHst2) :
    BronzeStats :=
  let record_ids := (storage.map (fun r => r.record_id)).filter truthyFV
  let unique_users :=
    ((storage.map (fun r => r.creat_usrnbr)).filter truthyFV).dedup
  { total_records := counter
    current_storage := storage.length
    unique_record_ids := if record_ids.isEmpty then 0 else record_ids.dedup.length
    unique_users := unique_users.length
    last_record_id := if record_ids.isEmpty then none else pyListMax record_ids }

/-- The 21 known field names. -/
def fieldNames : List String :=
  ["authorizer_usrnbr", "creat_time", "creat_usrnbr", "data", "description",
   "description2", "external_user", "four_eye_on", "name", "next_seqnbr",
   "oper", "owner_usrnbr", "protection", "record_id", "seqnbr", "size",
   "transnbr", "trans_record_type", "updat_time", "updat_usrnbr", "version"]

/-- The 19 non-timestamp field names. -/
def nonTsFieldNames : List String :=
  ["authorizer_usrnbr", "creat_usrnbr", "data", "description",
   "description2", "external_user", "four_eye_on", "name", "next_seqnbr",
   "oper", "owner_usrnbr", "protection", "record_id", "seqnbr", "size",
   "transnbr", "trans_record_type", "updat_usrnbr", "version"]

/-- Field access by field name, mirroring the constructor-call field list. -/
def getField (r : BronzeTransHst2) (f : String) : FieldVal :=
  if f = "authorizer_usrnbr" then r.authorizer_usrnbr
  else if f = "creat_time" then r.creat_time
  else if f = "creat_usrnbr" then r.creat_usrnbr
  else if f = "data" then r.data
  else if f = "description" then r.description
  else if f = "description2" then r.description2
  else if f = "external_user" then r.external_user
  else if f = "four_eye_on" then r.four_eye_on
  else if f = "name" then r.name
  else if f = "next_seqnbr" then r.next_seqnbr
  else if f = "oper" then r.oper
  else if f = "owner_usrnbr" then r.owner_usrnbr
  else if f = "protection" then r.protection
  else if f = "record_id" then r.record_id
  else if f = "seqnbr" then r.seqnbr
  else if f = "size" then r.size
  else if f = "transnbr" then r.transnbr
  else if f = "trans_record_type" then r.trans_record_type
  else if f = "updat_time" then r.updat_time
  else if f = "updat_usrnbr" then r.updat_usrnbr
  else if f = "version" then r.version
  else .vnone

/-- Is the top-level JSON value a key-value object? -/
def isObjB : JVal → Bool
  | .jobj _ => true
  | _ => false


/-! ## Record-store lemmas -/

/-- The last ten elements of a list (the `[-10:]` slice). -/
def lastTen (l : List BronzeTransHst2) : List BronzeTransHst2 :=
  l.drop (l.length - 10)

theorem trimIf_eq_lastTen (l : List BronzeTransHst2) :
    (if 10 < l.length then l.drop (l.length - 10) else l) = lastTen l := by
  unfold lastTen
  by_cases h : 10 < l.length
  · rw [if_pos h]
  · rw [if_neg h]
    have h0 : l.length - 10 = 0 := by omega
    rw [h0, List.drop_zero]

theorem append_record_eq (st : StoreState) (r : BronzeTransHst2) :
    append_record st r = (⟨st.counter + 1, lastTen (st.storage ++ [r])⟩, st.counter + 1) := by
  simp only [append_record, trimIf_eq_lastTen]

theorem lastTen_length_le (l : List BronzeTransHst2) : (lastTen l).length ≤ 10 := by
  unfold lastTen
  rw [List.length_drop]
  omega

theorem lastTen_of_le (l : List BronzeTransHst2) (h : l.length ≤ 10) : lastTen l = l := by
  unfold lastTen
  have h0 : l.length - 10 = 0 := by omega
  rw [h0, List.drop_zero]

theorem lastTen_append (xs ys : List BronzeTransHst2) :
    lastTen (lastTen xs ++ ys) = lastTen (xs ++ ys) := by
  unfold lastTen
  have hk : xs.length - 10 ≤ xs.length := Nat.sub_le _ _
  rw [← List.drop_append_of_le_length hk, List.drop_drop]
  congr 1
  simp only [List.length_append, List.length_drop]
  omega

theorem appendAll_eq (rs : List BronzeTransHst2) :
    ∀ st : StoreState, st.storage.length ≤ 10 →
      (appendAll st rs).1 = ⟨st.counter + rs.length, lastTen (st.storage ++ rs)⟩ ∧
      (appendAll st rs).2 = List.range' (st.counter + 1) rs.length := by
  induction rs with
  | nil =>
    intro st h
    simp [appendAll, lastTen_of_le st.storage h, List.range']
  | cons r rs ih =>
    intro st h
    have h1 : (lastTen (st.storage ++ [r])).length ≤ 10 := lastTen_length_le _
    have := ih ⟨st.counter + 1, lastTen (st.storage ++ [r])⟩ h1
    simp only [appendAll, append_record_eq]
    refine ⟨?_, ?_⟩
    · rw [this.1]
      have : lastTen (lastTen (st.storage ++ [r]) ++ rs) = lastTen (st.storage ++ r :: rs) := by
        rw [lastTen_append, List.append_assoc, List.singleton_append]
      simp [this, List.length_cons]
      omega
    · rw [this.2]
      simp [List.range'_succ, List.length_cons]

/-- C2: starting from the empty store, appending 15 records in sequence
leaves the buffer at size 10 and the total counter at 15; the buffer holds
exactly the 6th through 15th appended records in arrival order (strict FIFO
eviction at capacity 10), and the appends return the post-increment totals
1, 2, ..., 15. -/
theorem c2_theorem (rs : List BronzeTransHst2) (h : rs.length = 15) :
    (appendAll ⟨0, []⟩ rs).1.storage = rs.drop 5 ∧
    (appendAll ⟨0, []⟩ rs).1.storage.length = 10 ∧
    (appendAll ⟨0, []⟩ rs).1.counter = 15 ∧
    (appendAll ⟨0, []⟩ rs).2 = List.range' 1 15 := by
  have := appendAll_eq rs ⟨0, []⟩ (by simp)
  have hst : (appendAll ⟨0, []⟩ rs).1 = ⟨15, rs.drop 5⟩ := by
    rw [this.1]
    unfold lastTen
    simp [h]
  refine ⟨?_, ?_, ?_, ?_⟩
  · rw [hst]
  · rw [hst]
    simp [List.length_drop, h]
  · rw [hst]
  · rw [this.2, h]

/-- Witness for C2 at a concrete list of 15 records. -/
theorem c2_witness :
    (List.replicate 15 nullRecord).length = 15 ∧
    ((appendAll ⟨0, []⟩ (List.replicate 15 nullRecord)).1.storage =
        (List.replicate 15 nullRecord).drop 5 ∧
      (appendAll ⟨0, []⟩ (List.replicate 15 nullRecord)).1.storage.length = 10 ∧
      (appendAll ⟨0, []⟩ (List.replicate 15 nullRecord)).1.counter = 15 ∧
      (appendAll ⟨0, []⟩ (List.replicate 15 nullRecord)).2 = List.range' 1 15) :=
  ⟨rfl, c2_theorem (List.replicate 15 nullRecord) rfl⟩

/-! ## Timestamp normalization (C5, C6) -/

/-- C5 counterexample: the claim says every string input is returned
unchanged, including the empty string — but `if not timestamp_value` makes
the empty string falsy, so it maps to `None`, not to `""`. -/
theorem c5_counterexample :
    convert_timestamp (fun _ => some "X") (fun _ => some "X")
      (some (.jstr "")) = none := rfl

/-- C5 amended: `None` maps to `None`, every NONEMPTY string maps to itself
unchanged, and the empty string (being falsy) maps to `None`. -/
theorem c5_theorem (convS convM : Int → Option String) :
    convert_timestamp convS convM none = none ∧
    convert_timestamp convS convM (some .jnull) = none ∧
    convert_timestamp convS convM (some (.jstr "")) = none ∧
    ∀ s : String, s ≠ "" → convert_timestamp convS convM (some (.jstr s)) = some s := by
  refine ⟨rfl, rfl, rfl, ?_⟩
  intro s hs
  have ht : pyTruthyJ (.jstr s) = true := by
    simp [pyTruthyJ, hs]
  simp [convert_timestamp, ht]

/-- Witness for C5 at the nonempty string "a". -/
theorem c5_witness :
    convert_timestamp (fun _ => none) (fun _ => none) none = none ∧
    ("a" : String) ≠ "" ∧
    convert_timestamp (fun _ => none) (fun _ => none) (some (.jstr "a")) = some "a" :=
  ⟨(c5_theorem (fun _ => none) (fun _ => none)).1, by decide,
    (c5_theorem (fun _ => none) (fun _ => none)).2.2.2 "a" (by decide)⟩

/-- C6 counterexample: the claim says every numeric input is converted to a
timestamp string (with a string-representation fallback) and that values of
magnitude above 10^12 take the milliseconds branch.  But numeric 0 is falsy
and maps to `None` (no string at all), and -2·10^12, whose magnitude exceeds
10^12, takes the SECONDS branch because the code compares the signed value
(`timestamp_value > 1e12`), not its magnitude. -/
theorem c6_counterexample :
    convert_timestamp (fun _ => some "SEC") (fun _ => some "MS")
      (some (.jint 0)) = none ∧
    convert_timestamp (fun _ => some "SEC") (fun _ => some "MS")
      (some (.jint (-(2 * 10 ^ 12)))) = some "SEC" := by
  refine ⟨rfl, ?_⟩
  have hng : ¬ ((-(2 * 10 ^ 12) : Int) > 10 ^ 12) := by decide
  have ht : pyTruthyJ (.jint (-(2 * 10 ^ 12))) = true := by decide
  simp [convert_timestamp, ht, hng]
  decide

/-- C6 amended: every NONZERO integer input is interpreted as epoch time —
milliseconds when the SIGNED value exceeds 10^12, seconds otherwise — and
converted via the abstracted `datetime.fromtimestamp(...).isoformat()`; on
conversion failure the plain decimal representation is returned instead, so
the result is always a string; integer 0 (falsy) maps to `None`. -/
theorem c6_theorem (convS convM : Int → Option String) (v : Int) (hv : v ≠ 0) :
    ((10 : Int) ^ 12 < v →
      convert_timestamp convS convM (some (.jint v)) =
        some (match convM v with | some s => s | none => intRepr v)) ∧
    (¬ (10 : Int) ^ 12 < v →
      convert_timestamp convS convM (some (.jint v)) =
        some (match convS v with | some s => s | none => intRepr v)) ∧
    convert_timestamp convS convM (some (.jint 0)) = none := by
  have ht : pyTruthyJ (.jint v) = true := by
    simp [pyTruthyJ, hv]
  refine ⟨?_, ?_, rfl⟩
  · intro h
    norm_num at h
    simp [convert_timestamp, ht, gt_iff_lt, h]
  · intro h
    have h2 : ¬ ((1000000000000 : Int) < v) := by norm_num at h; omega
    simp [convert_timestamp, ht, gt_iff_lt, h2]

/-- Witness for C6 at v = 5 (seconds branch, successful conversion). -/
theorem c6_witness :
    (5 : Int) ≠ 0 ∧ ¬ (10 : Int) ^ 12 < 5 ∧
    convert_timestamp (fun _ => some "S5") (fun _ => some "M5")
      (some (.jint 5)) = some "S5" :=
  ⟨by decide, by decide,
    (c6_theorem (fun _ => some "S5") (fun _ => some "M5") 5 (by decide)).2.1 (by decide)⟩

/-! ## Error-record synthesis (C3) and non-object JSON (C9) -/

theorem pjm_nonobj_error (convS convM : Int → Option String) (v : JVal)
    (h : isObjB v = false) :
    ∃ e, parse_json_message convS convM v = .error e := by
  cases v with
  | jobj kvs => simp [isObjB] at h
  | jnull => exact ⟨_, rfl⟩
  | jbool b => exact ⟨_, rfl⟩
  | jint n => exact ⟨_, rfl⟩
  | jfloat lit => exact ⟨_, rfl⟩
  | jstr s =>
    simp only [parse_json_message]
    split_ifs <;> exact ⟨_, rfl⟩
  | jarr xs =>
    simp only [parse_json_message]
    split_ifs <;> exact ⟨_, rfl⟩

/-- C9: every input that parses as JSON but is not a key-value object (bare
number, bare string, array, boolean, null) makes the decoder return the
PARSING_FAILED error record, because the envelope lookup / field access on
the non-object value raises and is caught by the outer error path. -/
theorem c9_theorem (convS convM : Int → Option String) (now s : String)
    (v : JVal) (h1 : jsonParse s = some v) (h2 : isObjB v = false) :
    (parse_confluent_message convS convM now s).name = .vstr "PARSING_FAILED" ∧
    (parse_confluent_message convS convM now s).record_id = .vint (-1) := by
  obtain ⟨e, he⟩ := pjm_nonobj_error convS convM v h2
  unfold parse_confluent_message
  simp only [h1, he]
  exact ⟨rfl, rfl⟩

/-- Witness for C9 at the bare-number input "42". -/
theorem c9_witness :
    jsonParse "42" = some (.jint 42) ∧ isObjB (.jint 42) = false ∧
    ((parse_confluent_message (fun _ => some "S") (fun _ => some "M") "T" "42").name =
        .vstr "PARSING_FAILED" ∧
      (parse_confluent_message (fun _ => some "S") (fun _ => some "M") "T" "42").record_id =
        .vint (-1)) :=
  ⟨rfl, rfl, c9_theorem (fun _ => some "S") (fun _ => some "M") "T" "42"
    (.jint 42) rfl rfl⟩

/-! ## Statistics (C4) -/

/-- Spec-side extraction: the value of a non-null, nonzero integer field. -/
def nonzeroIntOf : FieldVal → Option Int
  | .vint n => if n = 0 then none else some n
  | _ => none

/-- Schema-conformant field: an integer or `None` (never a string). -/
def isIntOrNone : FieldVal → Bool
  | .vstr _ => false
  | _ => true

theorem filter_truthy_eq_map_vint (storage : List BronzeTransHst2)
    (g : BronzeTransHst2 → FieldVal) (hg : ∀ r ∈ storage, isIntOrNone (g r) = true) :
    (storage.map g).filter truthyFV =
      (storage.filterMap (fun r => nonzeroIntOf (g r))).map FieldVal.vint := by
  induction storage with
  | nil => rfl
  | cons r t ih =>
    have hr := hg r (List.mem_cons_self r t)
    have ht := fun x hx => hg x (List.mem_cons_of_mem r hx)
    simp only [List.map_cons, List.filterMap_cons]
    cases hgr : g r with
    | vstr s => rw [hgr] at hr; simp [isIntOrNone] at hr
    | vnone => simp [truthyFV, nonzeroIntOf, List.filter_cons, ih ht]
    | vint n =>
      by_cases hn : n = 0
      · subst hn
        simp [truthyFV, nonzeroIntOf, List.filter_cons, ih ht]
      · have : (truthyFV (FieldVal.vint n)) = true := by simp [truthyFV, hn]
        simp [nonzeroIntOf, List.filter_cons, this, hn, ih ht]

theorem dedup_map_vint (l : List Int) :
    (l.map FieldVal.vint).dedup = l.dedup.map FieldVal.vint := by
  induction l with
  | nil => rfl
  | cons a t ih =>
    by_cases h : a ∈ t
    · have h2 : FieldVal.vint a ∈ t.map FieldVal.vint := List.mem_map_of_mem _ h
      rw [List.map_cons, List.dedup_cons_of_mem h2, List.dedup_cons_of_mem h, ih]
    · have h2 : FieldVal.vint a ∉ t.map FieldVal.vint := by
        intro hm
        obtain ⟨b, hb, he⟩ := List.mem_map.mp hm
        cases he
        exact h hb
      rw [List.map_cons, List.dedup_cons_of_not_mem h2, List.dedup_cons_of_not_mem h,
        ih, List.map_cons]

theorem unique_ids_eq (l : List Int) :
    (if (l.map FieldVal.vint).isEmpty = true then 0
      else (l.map FieldVal.vint).dedup.length) = l.toFinset.card := by
  cases l with
  | nil => simp
  | cons m ms =>
    have hne : (List.map FieldVal.vint (m :: ms)).isEmpty = false := rfl
    rw [hne, if_neg (by simp), dedup_map_vint, List.length_map, List.card_toFinset]

theorem py_max_fv_int (a b : Int) :
    py_max_fv (.vint a) (.vint b) = .vint (max a b) := by
  simp only [py_max_fv]
  by_cases h : a < b
  · rw [if_pos h]
    congr 1
    omega
  · rw [if_neg h]
    congr 1
    omega

theorem foldl_py_max_map (xs : List Int) :
    ∀ a : Int, (xs.map FieldVal.vint).foldl py_max_fv (.vint a) =
      .vint (xs.foldl max a) := by
  induction xs with
  | nil => intro a; rfl
  | cons b t ih =>
    intro a
    simp only [List.map_cons, List.foldl_cons, py_max_fv_int]
    exact ih (max a b)

theorem foldl_max_mem (xs : List Int) :
    ∀ a : Int, xs.foldl max a = a ∨ xs.foldl max a ∈ xs := by
  induction xs with
  | nil => intro a; exact Or.inl rfl
  | cons b t ih =>
    intro a
    simp only [List.foldl_cons]
    rcases ih (max a b) with h | h
    · rcases max_choice a b with hc | hc
      · exact Or.inl (h.trans hc)
      · refine Or.inr ?_
        rw [h.trans hc]
        exact List.mem_cons_self b t
    · exact Or.inr (List.mem_cons_of_mem b h)

theorem foldl_max_le (xs : List Int) :
    ∀ a : Int, a ≤ xs.foldl max a ∧ ∀ n ∈ xs, n ≤ xs.foldl max a := by
  induction xs with
  | nil =>
    intro a
    exact ⟨le_refl a, fun n hn => absurd hn (List.not_mem_nil n)⟩
  | cons b t ih =>
    intro a
    simp only [List.foldl_cons]
    refine ⟨le_trans (le_max_left a b) (ih (max a b)).1, ?_⟩
    intro n hn
    rcases List.mem_cons.mp hn with h | h
    · rw [h]
      exact le_trans (le_max_right a b) (ih (max a b)).1
    · exact (ih (max a b)).2 n h

/-- C4 counterexample: a buffer holding one record with `record_id = 0` and
`creat_usrnbr = 0`.  The claim says zero values are counted among the
distinct non-null values (predicting counts of 1 and `lastRecordId = 0`),
but the comprehensions filter with Python truthiness (`if r.record_id`), so
zero is dropped exactly like `None`: both counts are 0 and no last id. -/
theorem c4_counterexample :
    get_bronze_stats 1
        [{ nullRecord with record_id := .vint 0, creat_usrnbr := .vint 0 }] =
      { total_records := 1, current_storage := 1, unique_record_ids := 0,
        unique_users := 0, last_record_id := none } := rfl

/-- C4 amended: for every snapshot whose `record_id` and `creat_usrnbr`
fields are schema-conformant (integer or null), the stats report the number
of distinct NON-NULL, NONZERO `record_id` values, the number of distinct
non-null, nonzero `creat_usrnbr` values, and the maximum non-null, nonzero
`record_id` (absent when there is none).  Records with value 0 are NOT
counted — truthiness filtering drops them. -/
theorem c4_theorem (counter : Nat) (storage : List BronzeTransHst2)
    (hid : ∀ r ∈ storage, isIntOrNone r.record_id = true)
    (hus : ∀ r ∈ storage, isIntOrNone r.creat_usrnbr = true) :
    (get_bronze_stats counter storage).unique_record_ids =
      (storage.filterMap (fun r => nonzeroIntOf r.record_id)).toFinset.card ∧
    (get_bronze_stats counter storage).unique_users =
      (storage.filterMap (fun r => nonzeroIntOf r.creat_usrnbr)).toFinset.card ∧
    (storage.filterMap (fun r => nonzeroIntOf r.record_id) = [] →
      (get_bronze_stats counter storage).last_record_id = none) ∧
    (storage.filterMap (fun r => nonzeroIntOf r.record_id) ≠ [] →
      ∃ x, (get_bronze_stats counter storage).last_record_id = some (.vint x) ∧
        x ∈ storage.filterMap (fun r => nonzeroIntOf r.record_id) ∧
        ∀ n ∈ storage.filterMap (fun r => nonzeroIntOf r.record_id), n ≤ x) := by
  have keyId := filter_truthy_eq_map_vint storage (fun r => r.record_id) hid
  have keyUs := filter_truthy_eq_map_vint storage (fun r => r.creat_usrnbr) hus
  simp only [get_bronze_stats, keyId, keyUs]
  refine ⟨?_, ?_, ?_, ?_⟩
  · exact unique_ids_eq _
  · rw [dedup_map_vint, List.length_map, List.card_toFinset]
  · intro he
    simp [he]
  · intro he
    rcases hc : storage.filterMap (fun r => nonzeroIntOf r.record_id) with _ | ⟨m, ms⟩
    · exact absurd hc he
    · rw [hc]
      refine ⟨ms.foldl max m, ?_, ?_, ?_⟩
      · simp only [List.map_cons, List.isEmpty_cons, Bool.false_eq_true, if_false,
          pyListMax, foldl_py_max_map]
      · rcases foldl_max_mem ms m with h | h
        · rw [h]
          exact List.mem_cons_self m ms
        · exact List.mem_cons_of_mem m h
      · intro n hn
        rcases List.mem_cons.mp hn with h | h
        · rw [h]
          exact (foldl_max_le ms m).1
        · exact (foldl_max_le ms m).2 n h

/-- Witness for C4 at a concrete three-record snapshot with ids 5, 5, 3 and
one nonzero user. -/
theorem c4_witness :
    (∀ r ∈ [{ nullRecord with record_id := .vint 5, creat_usrnbr := .vint 2 },
        { nullRecord with record_id := .vint 5 },
        { nullRecord with record_id := .vint 3, creat_usrnbr := .vint 0 }],
      isIntOrNone r.record_id = true) ∧
    (∀ r ∈ [{ nullRecord with record_id := .vint 5, creat_usrnbr := .vint 2 },
        { nullRecord with record_id := .vint 5 },
        { nullRecord with record_id := .vint 3, creat_usrnbr := .vint 0 }],
      isIntOrNone r.creat_usrnbr = true) ∧
    ((get_bronze_stats 3 [{ nullRecord with record_id := .vint 5, creat_usrnbr := .vint 2 },
        { nullRecord with record_id := .vint 5 },
        { nullRecord with record_id := .vint 3, creat_usrnbr := .vint 0 }]).unique_record_ids =
      ([{ nullRecord with record_id := .vint 5, creat_usrnbr := .vint 2 },
        { nullRecord with record_id := .vint 5 },
        { nullRecord with record_id := .vint 3, creat_usrnbr := .vint 0 }].filterMap
          (fun r => nonzeroIntOf r.record_id)).toFinset.card ∧
      (get_bronze_stats 3 [{ nullRecord with record_id := .vint 5, creat_usrnbr := .vint 2 },
        { nullRecord with record_id := .vint 5 },
        { nullRecord with record_id := .vint 3, creat_usrnbr := .vint 0 }]).unique_users =
      ([{ nullRecord with record_id := .vint 5, creat_usrnbr := .vint 2 },
        { nullRecord with record_id := .vint 5 },
        { nullRecord with record_id := .vint 3, creat_usrnbr := .vint 0 }].filterMap
          (fun r => nonzeroIntOf r.creat_usrnbr)).toFinset.card ∧
      ([{ nullRecord with record_id := .vint 5, creat_usrnbr := .vint 2 },
        { nullRecord with record_id := .vint 5 },
        { nullRecord with record_id := .vint 3, creat_usrnbr := .vint 0 }].filterMap
          (fun r => nonzeroIntOf r.record_id) = [] →
        (get_bronze_stats 3 [{ nullRecord with record_id := .vint 5, creat_usrnbr := .vint 2 },
          { nullRecord with record_id := .vint 5 },
          { nullRecord with record_id := .vint 3, creat_usrnbr := .vint 0 }]).last_record_id = none) ∧
      ([{ nullRecord with record_id := .vint 5, creat_usrnbr := .vint 2 },
        { nullRecord with record_id := .vint 5 },
        { nullRecord with record_id := .vint 3, creat_usrnbr := .vint 0 }].filterMap
          (fun r => nonzeroIntOf r.record_id) ≠ [] →
        ∃ x, (get_bronze_stats 3 [{ nullRecord with record_id := .vint 5, creat_usrnbr := .vint 2 },
            { nullRecord with record_id := .vint 5 },
            { nullRecord with record_id := .vint 3, creat_usrnbr := .vint 0 }]).last_record_id =
            some (.vint x) ∧
          x ∈ [{ nullRecord with record_id := .vint 5, creat_usrnbr := .vint 2 },
            { nullRecord with record_id := .vint 5 },
            { nullRecord with record_id := .vint 3, creat_usrnbr := .vint 0 }].filterMap
              (fun r => nonzeroIntOf r.record_id) ∧
          ∀ n ∈ [{ nullRecord with record_id := .vint 5, creat_usrnbr := .vint 2 },
            { nullRecord with record_id := .vint 5 },
            { nullRecord with record_id := .vint 3, creat_usrnbr := .vint 0 }].filterMap
              (fun r => nonzeroIntOf r.record_id), n ≤ x)) :=
  ⟨by decide, by decide,
    c4_theorem 3 [{ nullRecord with record_id := .vint 5, creat_usrnbr := .vint 2 },
      { nullRecord with record_id := .vint 5 },
      { nullRecord with record_id := .vint 3, creat_usrnbr := .vint 0 }]
      (by decide) (by decide)⟩

/-! ## Pattern-matcher lemmas (C1, C7, C10) -/

/-- The canonical wrapped-int fragment `"f": \x7b"int": ds\x7d`. -/
def intFragment (fd ds : List Char) : List Char :=
  '"' :: (fd ++ ('"' :: ':' :: ' ' :: lbraceC :: '"' :: 'i' :: 'n' :: 't' :: '"' ::
    ':' :: ' ' :: (ds ++ [rbraceC])))

/-- The canonical wrapped-string fragment `"f": \x7b"string": "S"\x7d`. -/
def strFragment (fd S : List Char) : List Char :=
  '"' :: (fd ++ ('"' :: ':' :: ' ' :: lbraceC :: '"' :: 's' :: 't' :: 'r' :: 'i' ::
    'n' :: 'g' :: '"' :: ':' :: ' ' :: '"' :: (S ++ ['"', rbraceC])))

theorem char_ne_of_toNat {c d : Char} (h : c.toNat ≠ d.toNat) : c ≠ d :=
  fun he => h (congrArg Char.toNat he)

theorem digit_range {c : Char} (h : isAsciiDigit c = true) :
    48 ≤ c.toNat ∧ c.toNat ≤ 57 := by
  simpa [isAsciiDigit] using h

theorem alpha_range {c : Char} (h : isAsciiAlpha c = true) :
    (65 ≤ c.toNat ∧ c.toNat ≤ 90) ∨ (97 ≤ c.toNat ∧ c.toNat ≤ 122) := by
  simpa [isAsciiAlpha] using h

theorem pyWs_range {c : Char} (h : isPyWs c = true) :
    c.toNat = 32 ∨ c.toNat = 9 ∨ c.toNat = 10 ∨ c.toNat = 13 ∨
      c.toNat = 11 ∨ c.toNat = 12 := by
  have := h
  simp only [isPyWs, Bool.or_eq_true, decide_eq_true_eq] at this
  tauto

theorem not_pyWs_of_digit {c : Char} (h : isAsciiDigit c = true) :
    isPyWs c = false := by
  have := digit_range h
  simp only [isPyWs, Bool.or_eq_false_iff, decide_eq_false_iff_not]
  omega

theorem not_pyWs_of_alpha {c : Char} (h : isAsciiAlpha c = true) :
    isPyWs c = false := by
  have := alpha_range h
  simp only [isPyWs, Bool.or_eq_false_iff, decide_eq_false_iff_not]
  omega

theorem not_digit_of_alpha {c : Char} (h : isAsciiAlpha c = true) :
    isAsciiDigit c = false := by
  have := alpha_range h
  simp only [isAsciiDigit, Bool.and_eq_false_iff, decide_eq_false_iff_not]
  omega

theorem expectChar_self (c : Char) (r : List Char) :
    expectChar c (c :: r) = some r := by
  simp [expectChar]

theorem expectChar_some {c : Char} {cs r : List Char}
    (h : expectChar c cs = some r) : cs = c :: r := by
  cases cs with
  | nil => exact absurd h (by simp [expectChar])
  | cons d t =>
    by_cases hd : d = c
    · subst hd
      rw [expectChar_self] at h
      rw [Option.some_inj.mp h]
    · rw [expectChar, if_neg hd] at h
      exact absurd h (by simp)

theorem matchLit_append (xs : List Char) : ∀ r, matchLit xs (xs ++ r) = some r := by
  induction xs with
  | nil => intro r; rfl
  | cons x t ih =>
    intro r
    simp only [List.cons_append, matchLit, if_pos rfl]
    exact ih r

theorem matchLit_some (xs : List Char) :
    ∀ cs r, matchLit xs cs = some r → cs = xs ++ r := by
  induction xs with
  | nil =>
    intro cs r h
    simp only [matchLit, Option.some_inj] at h
    rw [h, List.nil_append]
  | cons x t ih =>
    intro cs r h
    cases cs with
    | nil => exact absurd h (by simp [matchLit])
    | cons c cr =>
      by_cases hc : c = x
      · subst hc
        rw [matchLit, if_pos rfl] at h
        rw [List.cons_append, ih cr r h]
      · rw [matchLit, if_neg hc] at h
        exact absurd h (by simp)

theorem skipWsL_cons_not {c : Char} (r : List Char) (h : isPyWs c = false) :
    skipWsL (c :: r) = c :: r := by
  rw [skipWsL, h]
  rfl

theorem skipWsL_split (cs : List Char) : ∃ p, cs = p ++ skipWsL cs := by
  induction cs with
  | nil => exact ⟨[], rfl⟩
  | cons c r ih =>
    by_cases h : isPyWs c
    · obtain ⟨p, hp⟩ := ih
      refine ⟨c :: p, ?_⟩
      rw [skipWsL, h]
      simpa using hp
    · refine ⟨[], ?_⟩
      rw [skipWsL_cons_not r (by simpa using h), List.nil_append]

theorem mem_of_mem_skipWsL {a : Char} {cs : List Char} (h : a ∈ skipWsL cs) :
    a ∈ cs := by
  obtain ⟨p, hp⟩ := skipWsL_split cs
  rw [hp]
  exact List.mem_append_right p h

theorem takeDigits_append (ds : List Char) :
    ∀ r, (∀ c ∈ ds, isAsciiDigit c = true) →
      (∀ c, r.head? = some c → isAsciiDigit c = false) →
      takeDigits (ds ++ r) = (ds, r) := by
  induction ds with
  | nil =>
    intro r _ hr
    cases r with
    | nil => rfl
    | cons c t =>
      rw [List.nil_append, takeDigits, hr c rfl]
      rfl
  | cons d t ih =>
    intro r hds hr
    have hd : isAsciiDigit d = true := hds d (List.mem_cons_self d t)
    rw [List.cons_append, takeDigits, hd]
    have := ih r (fun c hc => hds c (List.mem_cons_of_mem d hc)) hr
    simp [this]

theorem takeNonQuote_append (u : List Char) :
    ∀ w, (∀ c ∈ u, c ≠ '"') →
      takeNonQuote (u ++ '"' :: w) = (u, '"' :: w) := by
  induction u with
  | nil =>
    intro w _
    rw [List.nil_append, takeNonQuote, if_pos rfl]
  | cons d t ih =>
    intro w hu
    have hd : d ≠ '"' := hu d (List.mem_cons_self d t)
    rw [List.cons_append, takeNonQuote, if_neg hd]
    have := ih w (fun c hc => hu c (List.mem_cons_of_mem d hc))
    simp [this]

theorem matchP1At_some_brace {fd cs : List Char} {g : String}
    (h : matchP1At fd cs = some g) : lbraceC ∈ cs := by
  unfold matchP1At at h
  simp only [Option.bind_eq_some] at h
  obtain ⟨r1, h1, r2, h2, r3, h3, r4, h4, r5, h5, _⟩ := h
  have m5 : lbraceC ∈ skipWsL r4 := by
    rw [expectChar_some h5]
    exact List.mem_cons_self _ _
  have m4 : lbraceC ∈ skipWsL r3 := by
    rw [expectChar_some h4]
    exact List.mem_cons_of_mem _ (mem_of_mem_skipWsL m5)
  have m3 : lbraceC ∈ r2 := by
    rw [expectChar_some h3]
    exact List.mem_cons_of_mem _ (mem_of_mem_skipWsL m4)
  have m2 : lbraceC ∈ r1 := by
    rw [matchLit_some fd r1 r2 h2]
    exact List.mem_append_right fd m3
  rw [expectChar_some h1]
  exact List.mem_cons_of_mem _ m2

theorem matchP1At_none_head {fd cs : List Char} (h : cs.head? ≠ some '"') :
    matchP1At fd cs = none := by
  cases cs with
  | nil => rfl
  | cons c r =>
    have hc : ¬ c = '"' := fun he => h (by rw [he]; rfl)
    simp [matchP1At, expectChar, hc]

theorem matchP2At_none_head {fd cs : List Char} (h : cs.head? ≠ some '"') :
    matchP2At fd cs = none := by
  cases cs with
  | nil => rfl
  | cons c r =>
    have hc : ¬ c = '"' := fun he => h (by rw [he]; rfl)
    simp [matchP2At, expectChar, hc]

theorem matchP3At_none_head {fd cs : List Char} (h : cs.head? ≠ some '"') :
    matchP3At fd cs = none := by
  cases cs with
  | nil => rfl
  | cons c r =>
    have hc : ¬ c = '"' := fun he => h (by rw [he]; rfl)
    simp [matchP3At, expectChar, hc]

theorem matchP4At_none_head {fd cs : List Char} (h : cs.head? ≠ some '"') :
    matchP4At fd cs = none := by
  cases cs with
  | nil => rfl
  | cons c r =>
    have hc : ¬ c = '"' := fun he => h (by rw [he]; rfl)
    simp [matchP4At, expectChar, hc]

theorem searchAt_cons_some {m : List Char → Option String} {c : Char}
    {r : List Char} {g : String} (h : m (c :: r) = some g) :
    searchAt m (c :: r) = some g := by
  simp [searchAt, h]

theorem searchAt_none_head_quote (m : List Char → Option String)
    (hm : ∀ cs : List Char, cs.head? ≠ some '"' → m cs = none) :
    ∀ cs : List Char, '"' ∉ cs → searchAt m cs = none := by
  intro cs
  induction cs with
  | nil => intro _; exact hm [] (by simp)
  | cons c r ih =>
    intro h
    have hc : c ≠ '"' := fun he => h (he ▸ List.mem_cons_self c r)
    have h1 : m (c :: r) = none := hm _ (by simp [hc])
    have h2 : '"' ∉ r := fun hr => h (List.mem_cons_of_mem c hr)
    simp [searchAt, h1, ih h2]

theorem searchP1_none_no_brace (fd : List Char) :
    ∀ cs : List Char, lbraceC ∉ cs → searchAt (matchP1At fd) cs = none := by
  intro cs
  induction cs with
  | nil =>
    intro _
    rfl
  | cons c r ih =>
    intro h
    have h1 : matchP1At fd (c :: r) = none := by
      cases hm : matchP1At fd (c :: r) with
      | none => rfl
      | some g => exact absurd (matchP1At_some_brace hm) h
    have h2 : lbraceC ∉ r := fun hr => h (List.mem_cons_of_mem c hr)
    simp [searchAt, h1, ih h2]

theorem extract_value_no_quote (f : String) (text : List Char)
    (h : '"' ∉ text) : extract_value f text = .vnone := by
  unfold extract_value
  rw [searchAt_none_head_quote _ (fun cs hc => matchP1At_none_head hc) text h,
    searchAt_none_head_quote _ (fun cs hc => matchP2At_none_head hc) text h,
    searchAt_none_head_quote _ (fun cs hc => matchP3At_none_head hc) text h,
    searchAt_none_head_quote _ (fun cs hc => matchP4At_none_head hc) text h]

theorem trimWs_id (cs : List Char) (h : ∀ c ∈ cs, isPyWs c = false) :
    trimWs cs = cs := by
  unfold trimWs
  have h1 : cs.dropWhile (fun c => isPyWs c) = cs := by
    cases cs with
    | nil => rfl
    | cons c t =>
      rw [List.dropWhile_cons, h c (List.mem_cons_self c t)]
      rfl
  rw [h1]
  have h2 : cs.reverse.dropWhile (fun c => isPyWs c) = cs.reverse := by
    cases hrev : cs.reverse with
    | nil => rfl
    | cons d u =>
      have hd : d ∈ cs := by
        rw [← List.mem_reverse, hrev]
        exact List.mem_cons_self d u
      rw [List.dropWhile_cons, h d hd]
      rfl
  rw [h2, List.reverse_reverse]

theorem duGo_digits (ds : List Char) (hds : ∀ c ∈ ds, isAsciiDigit c = true) :
    ∀ a : Nat, duGo a false ds =
      some (ds.foldl (fun x c => x * 10 + (c.toNat - 48)) a) := by
  induction ds with
  | nil => intro a; rfl
  | cons c t ih =>
    intro a
    have hc : isAsciiDigit c = true := hds c (List.mem_cons_self c t)
    rw [duGo, if_pos hc, List.foldl_cons]
    exact ih (fun x hx => hds x (List.mem_cons_of_mem c hx)) (a * 10 + (c.toNat - 48))

theorem pyInt_digits (ds : List Char) (hne : ds ≠ [])
    (hds : ∀ c ∈ ds, isAsciiDigit c = true) :
    pyIntOfString (String.mk ds) = some (Int.ofNat (digitsVal ds)) := by
  have ht : trimWs (String.mk ds).data = ds :=
    trimWs_id ds (fun c hc => not_pyWs_of_digit (hds c hc))
  unfold pyIntOfString
  rw [ht]
  cases ds with
  | nil => exact absurd rfl hne
  | cons c r =>
    have hc : isAsciiDigit c = true := hds c (List.mem_cons_self c r)
    have hcr := digit_range hc
    have hplus : c ≠ '+' := by
      refine char_ne_of_toNat ?_
      have h43 : ('+').toNat = 43 := rfl
      omega
    have hminus : c ≠ '-' := by
      refine char_ne_of_toNat ?_
      have h45 : ('-').toNat = 45 := rfl
      omega
    rw [pyIntCore, if_neg hplus, if_neg hminus, digitsU, if_pos hc,
      duGo_digits r (fun x hx => hds x (List.mem_cons_of_mem c hx)) (c.toNat - 48)]
    have h0 : 0 * 10 + (c.toNat - 48) = c.toNat - 48 := by omega
    simp only [Option.map_some', Option.some_inj]
    unfold digitsVal
    rw [List.foldl_cons, h0]

theorem pyInt_alpha (S : List Char) (hne : S ≠ [])
    (hS : ∀ c ∈ S, isAsciiAlpha c = true) :
    pyIntOfString (String.mk S) = none := by
  have ht : trimWs (String.mk S).data = S :=
    trimWs_id S (fun c hc => not_pyWs_of_alpha (hS c hc))
  unfold pyIntOfString
  rw [ht]
  cases S with
  | nil => exact absurd rfl hne
  | cons c r =>
    have hc : isAsciiAlpha c = true := hS c (List.mem_cons_self c r)
    have hcr := alpha_range hc
    have hplus : c ≠ '+' := by
      refine char_ne_of_toNat ?_
      have h43 : ('+').toNat = 43 := rfl
      omega
    have hminus : c ≠ '-' := by
      refine char_ne_of_toNat ?_
      have h45 : ('-').toNat = 45 := rfl
      omega
    rw [pyIntCore, if_neg hplus, if_neg hminus, digitsU, not_digit_of_alpha hc]
    rfl

theorem skipWsL_colon (r : List Char) : skipWsL (':' :: r) = ':' :: r := rfl

theorem skipWsL_space (r : List Char) : skipWsL (' ' :: r) = skipWsL r := rfl

theorem skipWsL_lbrace (r : List Char) : skipWsL (lbraceC :: r) = lbraceC :: r := rfl

theorem skipWsL_rbrace (r : List Char) : skipWsL (rbraceC :: r) = rbraceC :: r := rfl

theorem skipWsL_quote (r : List Char) : skipWsL ('"' :: r) = '"' :: r := rfl

theorem matchLit_int (r : List Char) :
    matchLit ['i', 'n', 't'] ('i' :: 'n' :: 't' :: r) = some r := rfl

theorem matchLit_strlit (r : List Char) :
    matchLit ['s', 't', 'r', 'i', 'n', 'g']
      ('s' :: 't' :: 'r' :: 'i' :: 'n' :: 'g' :: r) = some r := rfl

theorem matchP1At_intFragment (fd ds : List Char) (hne : ds ≠ [])
    (hds : ∀ c ∈ ds, isAsciiDigit c = true) :
    matchP1At fd (intFragment fd ds) = some (String.mk ds) := by
  obtain ⟨d, ds', rfl⟩ : ∃ d ds', ds = d :: ds' := by
    cases ds with
    | nil => exact absurd rfl hne
    | cons d t => exact ⟨d, t, rfl⟩
  have hd : isPyWs d = false := not_pyWs_of_digit (hds d (List.mem_cons_self d ds'))
  have htd : takeDigits (d :: (ds' ++ [rbraceC])) = (d :: ds', [rbraceC]) := by
    refine takeDigits_append (d :: ds') [rbraceC] hds ?_
    intro c hc
    have hcr : c = rbraceC := (Option.some_inj.mp hc).symm
    rw [hcr]
    rfl
  simp only [matchP1At, intFragment, expectChar_self, Option.some_bind,
    matchLit_append, skipWsL_colon, skipWsL_space, skipWsL_lbrace,
    skipWsL_quote, matchLit_int, List.cons_append]
  rw [skipWsL_cons_not _ hd, htd]
  simp only [List.isEmpty_cons, skipWsL_rbrace, expectChar_self, Option.some_bind,
    Bool.false_eq_true, if_false]

theorem matchP2At_strFragment (fd S : List Char) (hSne : S ≠ [])
    (hq : ∀ c ∈ S, c ≠ '"') :
    matchP2At fd (strFragment fd S) = some (String.mk S) := by
  have htq : takeNonQuote (S ++ '"' :: [rbraceC]) = (S, '"' :: [rbraceC]) :=
    takeNonQuote_append S [rbraceC] hq
  have hie : S.isEmpty = false := by
    cases S with
    | nil => exact absurd rfl hSne
    | cons c t => rfl
  simp only [matchP2At, strFragment, expectChar_self, Option.some_bind,
    matchLit_append, skipWsL_colon, skipWsL_space, skipWsL_lbrace,
    skipWsL_quote, matchLit_strlit, List.cons_append]
  rw [htq]
  simp only [hie, skipWsL_rbrace, expectChar_self, Option.some_bind,
    Bool.false_eq_true, if_false]

theorem extract_value_intFragment (f : String) (ds : List Char) (hne : ds ≠ [])
    (hds : ∀ c ∈ ds, isAsciiDigit c = true) :
    extract_value f (intFragment f.data ds) = .vint (Int.ofNat (digitsVal ds)) := by
  have hs : searchAt (matchP1At f.data) (intFragment f.data ds) = some (String.mk ds) :=
    searchAt_cons_some (matchP1At_intFragment f.data ds hne hds)
  simp only [extract_value, hs]
  unfold coerceGroup
  rw [pyInt_digits ds hne hds]

theorem quote_notin_alpha {S : List Char} (hS : ∀ c ∈ S, isAsciiAlpha c = true) :
    ∀ c ∈ S, c ≠ '"' := by
  intro c hc
  refine char_ne_of_toNat ?_
  have := alpha_range (hS c hc)
  have h34 : ('"').toNat = 34 := rfl
  omega

theorem searchP1_tail_none (fd S : List Char)
    (hS : ∀ c ∈ S, isAsciiAlpha c = true) :
    searchAt (matchP1At fd) ('"' :: (S ++ ['"', rbraceC])) = none := by
  refine searchP1_none_no_brace fd _ ?_
  intro h
  have h123 : lbraceC.toNat = 123 := rfl
  rcases List.mem_cons.mp h with h1 | h1
  · exact absurd (congrArg Char.toNat h1) (by rw [h123]; decide)
  · rcases List.mem_append.mp h1 with h2 | h2
    · have := alpha_range (hS _ h2)
      omega
    · rcases List.mem_cons.mp h2 with h3 | h3
      · exact absurd (congrArg Char.toNat h3) (by rw [h123]; decide)
      · rcases List.mem_cons.mp h3 with h4 | h4
        · exact absurd (congrArg Char.toNat h4) (by rw [h123]; decide)
        · exact absurd h4 (List.not_mem_nil _)

theorem searchP1_strFragment_none (f : String) (hf : f ∈ nonTsFieldNames)
    (S : List Char) (hS : ∀ c ∈ S, isAsciiAlpha c = true) :
    searchAt (matchP1At f.data) (strFragment f.data S) = none := by
  fin_cases hf <;> exact searchP1_tail_none _ S hS

theorem extract_value_strFragment (f : String) (hf : f ∈ nonTsFieldNames)
    (S : List Char) (hSne : S ≠ [])
    (hS : ∀ c ∈ S, isAsciiAlpha c = true) :
    extract_value f (strFragment f.data S) = .vstr (String.mk S) := by
  have h1 := searchP1_strFragment_none f hf S hS
  have h2 : searchAt (matchP2At f.data) (strFragment f.data S) = some (String.mk S) :=
    searchAt_cons_some (matchP2At_strFragment f.data S hSne (quote_notin_alpha hS))
  simp only [extract_value, h1, h2]
  unfold coerceGroup
  rw [pyInt_alpha S hSne hS]

theorem nonTs_sub_fieldNames : ∀ f ∈ nonTsFieldNames, f ∈ fieldNames := by
  decide

/-- The 14 integer-schema field names (all non-timestamp). -/
def intFieldNames : List String :=
  ["authorizer_usrnbr", "creat_usrnbr", "four_eye_on", "next_seqnbr", "oper",
   "owner_usrnbr", "protection", "record_id", "seqnbr", "size", "transnbr",
   "trans_record_type", "updat_usrnbr", "version"]

/-- The 5 string-schema field names that are not timestamps. -/
def strFieldNamesNonTs : List String :=
  ["data", "description", "description2", "external_user", "name"]

/-- Is the named field of string schema (`Optional[str]`)? -/
def strSchemaB (f : String) : Bool :=
  f == "creat_time" || f == "data" || f == "description" ||
  f == "description2" || f == "external_user" || f == "name" ||
  f == "updat_time"

/-- The validator the record constructor applies to the named field's
extracted value. -/
def schemaValidE (f : String) (v : FieldVal) : Except String FieldVal :=
  if strSchemaB f then vStrA v else vIntA v

theorem intFields_sub_nonTs : ∀ f ∈ intFieldNames, f ∈ nonTsFieldNames := by
  decide

theorem strFieldsNT_sub_nonTs : ∀ f ∈ strFieldNamesNonTs, f ∈ nonTsFieldNames := by
  decide

theorem intSchema_validE : ∀ f ∈ intFieldNames, ∀ v, schemaValidE f v = vIntA v := by
  intro f hf v
  fin_cases hf <;> rfl

theorem strSchema_validE : ∀ f ∈ strFieldNamesNonTs, ∀ v, schemaValidE f v = vStrA v := by
  intro f hf v
  fin_cases hf <;> rfl

theorem bindE_ok {α β : Type} (x : Except String α) (g : α → Except String β)
    (b : β) : (x >>= g) = .ok b ↔ ∃ a, x = .ok a ∧ g a = .ok b := by
  cases x with
  | ok a => simp [Bind.bind, Except.bind]
  | error e => simp [Bind.bind, Except.bind]

/-- When the fallback record construction succeeds, each field of the result
is exactly the schema-validated extraction of that field. -/
theorem parse_avro_ok_field (text : List Char) (r : BronzeTransHst2)
    (h : parse_avro_string (String.mk text) = .ok r) :
    ∀ f ∈ fieldNames, schemaValidE f (extract_value f text) = .ok (getField r f) := by
  unfold parse_avro_string at h
  simp only [bindE_ok] at h
  obtain ⟨v01, h01, v02, h02, v03, h03, v04, h04, v05, h05, v06, h06, v07, h07,
    v08, h08, v09, h09, v10, h10, v11, h11, v12, h12, v13, h13, v14, h14,
    v15, h15, v16, h16, v17, h17, v18, h18, v19, h19, v20, h20, v21, h21, hr⟩ := h
  injection hr with hv
  subst hv
  intro f hf
  fin_cases hf
  · exact h01
  · exact h02
  · exact h03
  · exact h04
  · exact h05
  · exact h06
  · exact h07
  · exact h08
  · exact h09
  · exact h10
  · exact h11
  · exact h12
  · exact h13
  · exact h14
  · exact h15
  · exact h16
  · exact h17
  · exact h18
  · exact h19
  · exact h20
  · exact h21

theorem pjm_single_int (convS convM : Int → Option String) (f : String)
    (hf : f ∈ intFieldNames) (n : Int) :
    ∃ r, parse_json_message convS convM (.jobj [(f, .jint n)]) = .ok r ∧
      getField r f = .vint n := by
  fin_cases hf <;> exact ⟨_, rfl, rfl⟩

theorem pjm_single_str (convS convM : Int → Option String) (f : String)
    (hf : f ∈ strFieldNamesNonTs) (s : String) :
    ∃ r, parse_json_message convS convM (.jobj [(f, .jstr s)]) = .ok r ∧
      getField r f = .vstr s := by
  fin_cases hf <;> exact ⟨_, rfl, rfl⟩

theorem jsonParse_intFragment (f : String) (hf : f ∈ nonTsFieldNames)
    (ds : List Char) :
    jsonParse (String.mk (intFragment f.data ds)) = none := by
  fin_cases hf <;> rfl

theorem jsonParse_strFragment (f : String) (hf : f ∈ nonTsFieldNames)
    (S : List Char) :
    jsonParse (String.mk (strFragment f.data S)) = none := by
  fin_cases hf <;> rfl

/-- C7 counterexample: for the timestamp field `creat_time` — which the claim
explicitly includes — the pattern-based fallback extracts the raw wrapped int
`1700000000000`; the structured decode of the equivalent plain JSON instead
routes the value through timestamp conversion and stores the converted
string.  End to end, the fallback never produces that value: the extracted
int fails the `Optional[str]` validation of the record constructor (pydantic
v2 rejects; v1 would coerce it to the decimal string "1700000000000" — in
neither version the converted timestamp), so as modelled the fallback yields
the PARSING_FAILED error record while the structured decode succeeds with
the converted string. -/
theorem c7_counterexample :
    extract_value "creat_time"
        (intFragment "creat_time".data "1700000000000".data) =
      .vint 1700000000000 ∧
    (parse_confluent_message (fun _ => some "SEC") (fun _ => some "MS") "NOW"
        (String.mk (intFragment "creat_time".data "1700000000000".data))).name =
      .vstr "PARSING_FAILED" ∧
    (parse_confluent_message (fun _ => some "SEC") (fun _ => some "MS") "NOW"
        (String.mk (intFragment "creat_time".data "1700000000000".data))).record_id =
      .vint (-1) ∧
    ∃ r, parse_json_message (fun _ => some "SEC") (fun _ => some "MS")
        (.jobj [("creat_time", .jint 1700000000000)]) = .ok r ∧
      r.creat_time = .vstr "MS" :=
  ⟨rfl, rfl, rfl, ⟨_, rfl, rfl⟩⟩

/-- C7 amended: the two strategies agree on the canonical Avro-union shapes
when the wrapped value matches the field's schema: for an INT-schema field a
wrapped int `"f": \x7b"int": N\x7d` is extracted as the integer N, that value
passes the constructor's validation, and whenever the whole fallback record
validates the end-to-end decode holds N in field f — the same value the
structured decode of `\x7b"f": N\x7d` produces; likewise a wrapped
non-numeric string on a STRING-schema (non-timestamp) field yields the same
string on both paths.  Timestamp fields differ (see the counterexample), a
wrapped int on a string field and a wrapped all-digit string on any field
are transformed or rejected by coercion/validation, so the equivalence is
stated per schema kind. -/
theorem c7_theorem (convS convM : Int → Option String) (now : String)
    (fi fs : String) (hfi : fi ∈ intFieldNames) (hfs : fs ∈ strFieldNamesNonTs)
    (ds : List Char) (hdne : ds ≠ []) (hds : ∀ c ∈ ds, isAsciiDigit c = true)
    (S : List Char) (hSne : S ≠ []) (hS : ∀ c ∈ S, isAsciiAlpha c = true) :
    (extract_value fi (intFragment fi.data ds) = .vint (Int.ofNat (digitsVal ds)) ∧
      vIntA (extract_value fi (intFragment fi.data ds)) =
        .ok (.vint (Int.ofNat (digitsVal ds))) ∧
      (∀ r, parse_avro_string (String.mk (intFragment fi.data ds)) = .ok r →
        parse_confluent_message convS convM now (String.mk (intFragment fi.data ds)) = r ∧
          getField r fi = .vint (Int.ofNat (digitsVal ds))) ∧
      ∃ r, parse_json_message convS convM
          (.jobj [(fi, .jint (Int.ofNat (digitsVal ds)))]) = .ok r ∧
        getField r fi = .vint (Int.ofNat (digitsVal ds))) ∧
    (extract_value fs (strFragment fs.data S) = .vstr (String.mk S) ∧
      vStrA (extract_value fs (strFragment fs.data S)) = .ok (.vstr (String.mk S)) ∧
      (∀ r, parse_avro_string (String.mk (strFragment fs.data S)) = .ok r →
        parse_confluent_message convS convM now (String.mk (strFragment fs.data S)) = r ∧
          getField r fs = .vstr (String.mk S)) ∧
      ∃ r, parse_json_message convS convM
          (.jobj [(fs, .jstr (String.mk S))]) = .ok r ∧
        getField r fs = .vstr (String.mk S)) := by
  have hext_i := extract_value_intFragment fi ds hdne hds
  have hext_s := extract_value_strFragment fs (strFieldsNT_sub_nonTs fs hfs) S hSne hS
  refine ⟨⟨hext_i, ?_, ?_, ?_⟩, ⟨hext_s, ?_, ?_, ?_⟩⟩
  · rw [hext_i]
    rfl
  · intro r hok
    constructor
    · unfold parse_confluent_message
      simp only [jsonParse_intFragment fi (intFields_sub_nonTs fi hfi) ds, hok]
    · have hfld := parse_avro_ok_field (intFragment fi.data ds) r hok fi
        (nonTs_sub_fieldNames fi (intFields_sub_nonTs fi hfi))
      rw [hext_i, intSchema_validE fi hfi] at hfld
      have h2 : Except.ok (FieldVal.vint (Int.ofNat (digitsVal ds))) =
          Except.ok (getField r fi) := hfld
      injection h2 with h3
      exact h3.symm
  · exact pjm_single_int convS convM fi hfi _
  · rw [hext_s]
    rfl
  · intro r hok
    constructor
    · unfold parse_confluent_message
      simp only [jsonParse_strFragment fs (strFieldsNT_sub_nonTs fs hfs) S, hok]
    · have hfld := parse_avro_ok_field (strFragment fs.data S) r hok fs
        (nonTs_sub_fieldNames fs (strFieldsNT_sub_nonTs fs hfs))
      rw [hext_s, strSchema_validE fs hfs] at hfld
      have h2 : Except.ok (FieldVal.vstr (String.mk S)) =
          Except.ok (getField r fs) := hfld
      injection h2 with h3
      exact h3.symm
  · exact pjm_single_str convS convM fs hfs _

/-- Witness for C7 at the int field `record_id` with digits "99" and the
string field `name` with "Bob"; the fallback records at both fragments
validate concretely, exercising the conditional parts. -/
theorem c7_witness :
    ("record_id" : String) ∈ intFieldNames ∧
    ("name" : String) ∈ strFieldNamesNonTs ∧
    (['9', '9'] : List Char) ≠ [] ∧
    (∀ c ∈ (['9', '9'] : List Char), isAsciiDigit c = true) ∧
    ("Bob".data ≠ []) ∧
    (∀ c ∈ "Bob".data, isAsciiAlpha c = true) ∧
    (∃ r, parse_avro_string (String.mk (intFragment "record_id".data ['9', '9'])) = .ok r) ∧
    (∃ r, parse_avro_string (String.mk (strFragment "name".data "Bob".data)) = .ok r) ∧
    ((extract_value "record_id" (intFragment "record_id".data ['9', '9']) =
        .vint (Int.ofNat (digitsVal ['9', '9'])) ∧
      vIntA (extract_value "record_id" (intFragment "record_id".data ['9', '9'])) =
        .ok (.vint (Int.ofNat (digitsVal ['9', '9']))) ∧
      (∀ r, parse_avro_string (String.mk (intFragment "record_id".data ['9', '9'])) = .ok r →
        parse_confluent_message (fun _ => none) (fun _ => none) "NOW"
            (String.mk (intFragment "record_id".data ['9', '9'])) = r ∧
          getField r "record_id" = .vint (Int.ofNat (digitsVal ['9', '9']))) ∧
      ∃ r, parse_json_message (fun _ => none) (fun _ => none)
          (.jobj [("record_id", .jint (Int.ofNat (digitsVal ['9', '9'])))]) = .ok r ∧
        getField r "record_id" = .vint (Int.ofNat (digitsVal ['9', '9']))) ∧
    (extract_value "name" (strFragment "name".data "Bob".data) =
        .vstr (String.mk "Bob".data) ∧
      vStrA (extract_value "name" (strFragment "name".data "Bob".data)) =
        .ok (.vstr (String.mk "Bob".data)) ∧
      (∀ r, parse_avro_string (String.mk (strFragment "name".data "Bob".data)) = .ok r →
        parse_confluent_message (fun _ => none) (fun _ => none) "NOW"
            (String.mk (strFragment "name".data "Bob".data)) = r ∧
          getField r "name" = .vstr (String.mk "Bob".data)) ∧
      ∃ r, parse_json_message (fun _ => none) (fun _ => none)
          (.jobj [("name", .jstr (String.mk "Bob".data))]) = .ok r ∧
        getField r "name" = .vstr (String.mk "Bob".data))) :=
  ⟨by decide, by decide, by decide, by decide, by decide, by decide,
    ⟨_, rfl⟩, ⟨_, rfl⟩,
    c7_theorem (fun _ => none) (fun _ => none) "NOW" "record_id" "name"
      (by decide) (by decide) ['9', '9'] (by decide) (by decide)
      "Bob".data (by decide) (by decide)⟩

/-! ## Empty and whitespace-only inputs (C10, C1) -/

theorem parseValue_nil (fuel : Nat) : parseValue fuel [] = none := by
  cases fuel <;> rfl

theorem parseValue_odd_ws (fuel : Nat) (c : Char) (r : List Char)
    (hpw : isPyWs c = true) (hjw : isJsonWs c = false) :
    parseValue fuel (c :: r) = none := by
  have hrange := pyWs_range hpw
  have hnj : c.toNat ≠ 32 ∧ c.toNat ≠ 9 ∧ c.toNat ≠ 10 ∧ c.toNat ≠ 13 := by
    simp only [isJsonWs, Bool.or_eq_false_iff, decide_eq_false_iff_not] at hjw
    exact ⟨hjw.1.1.1, hjw.1.1.2, hjw.1.2, hjw.2⟩
  have h1112 : c.toNat = 11 ∨ c.toNat = 12 := by omega
  rcases h1112 with h | h
  · have hc : c = Char.ofNat 11 := by rw [← Char.ofNat_toNat c, h]
    rw [hc]
    cases fuel <;> rfl
  · have hc : c = Char.ofNat 12 := by rw [← Char.ofNat_toNat c, h]
    rw [hc]
    cases fuel <;> rfl

theorem skipJWs_ws (cs : List Char) (h : ∀ c ∈ cs, isPyWs c = true) :
    skipJWs cs = [] ∨
      ∃ c r, skipJWs cs = c :: r ∧ isPyWs c = true ∧ isJsonWs c = false := by
  induction cs with
  | nil => exact Or.inl rfl
  | cons c t ih =>
    by_cases hj : isJsonWs c
    · have : skipJWs (c :: t) = skipJWs t := by rw [skipJWs, if_pos hj]
      rw [this]
      exact ih (fun x hx => h x (List.mem_cons_of_mem c hx))
    · refine Or.inr ⟨c, t, ?_, h c (List.mem_cons_self c t), by simpa using hj⟩
      rw [skipJWs, if_neg hj]

theorem jsonParse_ws (s : String) (h : ∀ c ∈ s.data, isPyWs c = true) :
    jsonParse s = none := by
  rcases skipJWs_ws s.data h with hskip | ⟨c, r, hskip, hpw, hjw⟩
  · simp only [jsonParse, hskip, parseValue_nil]
  · simp only [jsonParse, hskip, parseValue_odd_ws _ c r hpw hjw]

/-- C10: the empty string — and more generally any whitespace-only input —
decodes to the record with all 21 business fields null (name null included),
NOT to a PARSING_FAILED error record: structured parsing fails with a
`JSONDecodeError`, the pattern fallback runs without raising, and no pattern
matches, so every field is extracted as `None`. -/
theorem c10_theorem (convS convM : Int → Option String) (now : String) :
    parse_confluent_message convS convM now "" = nullRecord ∧
    ∀ s : String, (∀ c ∈ s.data, isPyWs c = true) →
      parse_confluent_message convS convM now s = nullRecord := by
  refine ⟨rfl, ?_⟩
  intro s hs
  have hq : '"' ∉ s.data := by
    intro hmem
    have := pyWs_range (hs _ hmem)
    have h34 : ('"').toNat = 34 := rfl
    omega
  have hj := jsonParse_ws s hs
  unfold parse_confluent_message
  simp only [hj]
  have he : ∀ f, extract_value f s.data = FieldVal.vnone :=
    fun f => extract_value_no_quote f s.data hq
  have hA : parse_avro_string s = .ok nullRecord := by
    unfold parse_avro_string
    simp only [he]
    rfl
  simp only [hA]

/-- Witness for C10 at the two-space input. -/
theorem c10_witness :
    parse_confluent_message (fun _ => none) (fun _ => none) "NOW" "" = nullRecord ∧
    (∀ c ∈ ("  " : String).data, isPyWs c = true) ∧
    parse_confluent_message (fun _ => none) (fun _ => none) "NOW" "  " = nullRecord :=
  ⟨(c10_theorem (fun _ => none) (fun _ => none) "NOW").1, by decide,
    (c10_theorem (fun _ => none) (fun _ => none) "NOW").2 "  " (by decide)⟩

